import Mathlib

/-!
Verification of the scheduled-dispatch engine of the socialai backend.

The JavaScript source is shallowly embedded:

* SQLite rows (`posts`, `platform_posts`, `social_accounts`, `users`) become
  Lean structures collected in a `Store`; SQL `UPDATE ... WHERE` becomes a
  `List.map` that rewrites the matching rows; `SELECT ... LIMIT 1` becomes
  `List.find?`.
* ISO-8601 timestamps compare lexicographically in the source, which agrees
  with chronological order; instants are modelled as natural numbers
  (milliseconds since an epoch whose day 0 is a Thursday, as for the JS epoch).
* `JSON.parse` and the outbound HTTP calls are impure collaborators; they are
  modelled as oracle fields of an `Env` record (`parseJson`, `apiCall`), and a
  raised JS exception becomes the `Except.error` constructor.
* JS strings are `String`; where a claim is about character counts the string
  is modelled as its list of characters.

The JS status string `'partial'` is rendered by the constructor
`Status.partialStatus` (`partial` is a Lean keyword).
-/

namespace SocialAI

/-- Lifecycle status of a post (the `posts.status` column). -/
inductive Status where
  | draft
  | scheduled
  | processing
  | published
  | partialStatus
  | failed
deriving DecidableEq, Repr

/-- Sub-status of one platform attempt (the `platform_posts.status` column). -/
inductive PPStatus where
  | pending
  | published
  | failed
deriving DecidableEq, Repr

/-- A row of the `posts` table (the columns the dispatch engine touches). -/
structure Post where
  id : Nat
  user_id : Nat
  content : String
  media_urls : Option String
  platforms : Option String
  status : Status
  scheduled_at : Option Nat
  published_at : Option Nat
deriving DecidableEq, Repr

/-- A row of the `platform_posts` table. -/
structure PlatformPost where
  post_id : Nat
  platform : String
  content : Option String
  platform_post_id : Option String
  status : PPStatus
  published_at : Option Nat
  error_message : Option String
deriving DecidableEq, Repr

/-- A row of the `social_accounts` table. -/
structure Account where
  user_id : Nat
  platform : String
  account_name : String
  account_id : String
  access_token : String
  is_active : Bool
deriving DecidableEq, Repr

/-- The persistent store: the four tables the engine reads or writes
(`users` is only joined on its `id`, so just the ids are kept). -/
structure Store where
  users : List Nat
  posts : List Post
  platform_posts : List PlatformPost
  accounts : List Account
deriving DecidableEq, Repr

/-- The result object an adapter returns (`{success, postId?, error?, demo?, skipped?}`). -/
structure DispatchResult where
  success : Bool
  postId : Option String := none
  error : Option String := none
  demo : Bool := false
  skipped : Bool := false
deriving DecidableEq, Repr

/-- The impure collaborators of the engine: the clock (`Date.now()` /
`new Date()`), `JSON.parse` specialised to arrays of strings (the shape stored
in `posts.platforms` and `posts.media_urls`), the `process.env` configuration
check of each adapter, and the remote platform API call.  A raised JS
exception is an `Except.error` carrying the message. -/
structure Env where
  now : Nat
  parseJson : String → Except String (List String)
  envConfigured : String → Bool
  apiCall : String → Account → String → List String → Except String String

/-- JS `a || b` on a nullable string column: `null` and `''` are falsy. -/
def jsOr (a : Option String) (b : String) : String :=
  match a with
  | none => b
  | some s => if s = "" then b else s

/-! ## Content adaptation (publisher.js, `adaptContentForPlatform`) -/

/-- Per-platform character limit with default 1000
(`limits[platform] || 1000`, publisher.js lines 276-283). -/
def platformCharLimit (platform : String) : Nat :=
  if platform = "twitter" then 280
  else if platform = "facebook" then 63206
  else if platform = "linkedin" then 3000
  else if platform = "instagram" then 2200
  else 1000

/-- `adaptContentForPlatform` (publisher.js lines 275-291): return the content
unchanged when its length is within the platform limit, else truncate to
`maxLength - 3` characters and append `"..."`.  The JS string is its
character list, `.length` the list length, `substring (0, n)` is `take n`. -/
def adaptContentForPlatform (content : List Char) (platform : String) : List Char :=
  let maxLength := platformCharLimit platform
  if content.length ≤ maxLength then content
  else content.take (maxLength - 3) ++ ['.', '.', '.']

theorem adaptContentForPlatform_of_le (content : List Char) (platform : String)
    (h : content.length ≤ platformCharLimit platform) :
    adaptContentForPlatform content platform = content := by
  simp [adaptContentForPlatform, h]

theorem platformCharLimit_ge_three (platform : String) : 3 ≤ platformCharLimit platform := by
  unfold platformCharLimit
  split
  · omega
  split
  · omega
  split
  · omega
  split <;> omega

/-- C10: `adaptContentForPlatform` returns a string within the platform's
character limit (280 twitter, 63206 facebook, 3000 linkedin, 2200 instagram,
1000 otherwise), returns the content unchanged exactly when the content is
already within the limit, and is idempotent. -/
theorem adaptContentForPlatform_spec (content : List Char) (platform : String) :
    (adaptContentForPlatform content platform).length ≤ platformCharLimit platform ∧
    (adaptContentForPlatform content platform = content ↔
      content.length ≤ platformCharLimit platform) ∧
    adaptContentForPlatform (adaptContentForPlatform content platform) platform =
      adaptContentForPlatform content platform := by
  have h3 := platformCharLimit_ge_three platform
  by_cases h : content.length ≤ platformCharLimit platform
  · rw [adaptContentForPlatform_of_le content platform h]
    exact ⟨h, ⟨fun _ => h, fun _ => rfl⟩, adaptContentForPlatform_of_le content platform h⟩
  · have hne : adaptContentForPlatform content platform =
        content.take (platformCharLimit platform - 3) ++ ['.', '.', '.'] := by
      simp [adaptContentForPlatform, h]
    have hlen : (adaptContentForPlatform content platform).length =
        platformCharLimit platform := by
      rw [hne]
      simp [List.length_take]
      omega
    refine ⟨le_of_eq hlen, ?_, ?_⟩
    · constructor
      · intro heq
        exact absurd (heq ▸ hlen) (by omega)
      · intro hc
        exact absurd hc h
    · exact adaptContentForPlatform_of_le _ _ (le_of_eq hlen)

/-! ## Platform adapters (publisher.js, `platformClients`) -/

/-- The platforms that have an entry in `platformClients` (publisher.js 5-169). -/
def hasClient (platform : String) : Bool :=
  platform = "facebook" || platform = "linkedin" || platform = "twitter" ||
    platform = "instagram"

/-- Prefix of the synthetic demo post id of each adapter
(`fb_demo_`, `li_demo_`, `tw_demo_`, `ig_demo_`). -/
def demoIdPrefix (platform : String) : String :=
  if platform = "facebook" then "fb_demo_"
  else if platform = "linkedin" then "li_demo_"
  else if platform = "twitter" then "tw_demo_"
  else "ig_demo_"

/-- Whether an adapter takes its real-API branch: the platform's `process.env`
key is configured and the account token is not `'demo-token'`
(publisher.js lines 12, 43, 89, 133). -/
def realMode (env : Env) (platform : String) (account : Account) : Bool :=
  env.envConfigured platform && account.access_token ≠ "demo-token"

/-- `platformClients[platform].post(account, content, mediaUrls)`
(publisher.js 5-169).  The instagram adapter first refuses a call without
media (lines 124-131); in the real-API branch a remote failure is re-raised
(`throw error`); the demo branch succeeds with a synthetic id built from the
clock (`Date.now()`). -/
def clientPost (env : Env) (platform : String) (account : Account)
    (content : String) (mediaUrls : List String) : Except String DispatchResult :=
  if platform = "instagram" && mediaUrls.isEmpty then
    .ok { success := false, error := some "Instagram requires at least one image", skipped := true }
  else if realMode env platform account then
    match env.apiCall platform account content mediaUrls with
    | .ok pid => .ok { success := true, postId := some pid }
    | .error e => .error e
  else
    .ok { success := true, postId := some (demoIdPrefix platform ++ toString env.now), demo := true }

/-! ## Store queries and updates -/

/-- `SELECT * FROM social_accounts WHERE user_id = ? AND platform = ? AND is_active = 1 LIMIT 1`
(publisher.js 180-184). -/
def findAccount (store : Store) (userId : Nat) (platform : String) : Option Account :=
  store.accounts.find? (fun a => a.user_id = userId && a.platform = platform && a.is_active)

/-- `SELECT * FROM platform_posts WHERE post_id = ? AND platform = ?`
(publisher.js 212-214). -/
def findPlatformPost (store : Store) (postId : Nat) (platform : String) :
    Option PlatformPost :=
  store.platform_posts.find? (fun r => r.post_id = postId && r.platform = platform)

/-- `UPDATE platform_posts SET ... WHERE post_id = ? AND platform = ?`. -/
def updatePlatformPosts (store : Store) (postId : Nat) (platform : String)
    (f : PlatformPost → PlatformPost) : Store :=
  { store with platform_posts :=
      (store.platform_posts.map
        (fun r => if r.post_id = postId && r.platform = platform then f r else r)) }

/-- `UPDATE posts SET ... WHERE id = ?`. -/
def updatePosts (store : Store) (postId : Nat) (f : Post → Post) : Store :=
  { store with posts := store.posts.map (fun p => if p.id = postId then f p else p) }

/-! ## publishPost (publisher.js 172-251) -/

/-- The platform-specific content: `platformPost?.content || post.content`
(publisher.js 216; `||` also falls back on an empty override). -/
def platformContent (store : Store) (post : Post) (platform : String) : String :=
  jsOr ((findPlatformPost store post.id platform).bind PlatformPost.content) post.content

/-- The body of `publishPost`'s per-platform loop (publisher.js 177-247) with
its `try/catch` applied: the recorded `DispatchResult` together with the store
after that platform's `platform_posts` update.  A missing account, an
unsupported platform and a raised adapter error all become a failed result. -/
def attemptPlatform (env : Env) (store : Store) (post : Post) (userId : Nat)
    (mediaUrls : List String) (platform : String) : DispatchResult × Store :=
  match findAccount store userId platform with
  | none =>
      ({ success := false, error := some ("No connected " ++ platform ++ " account found") },
       updatePlatformPosts store post.id platform
         (fun r => { r with status := .failed, error_message := some "No connected account" }))
  | some account =>
      if hasClient platform then
        match clientPost env platform account (platformContent store post platform) mediaUrls with
        | .ok result =>
            (result,
             if result.success then
               updatePlatformPosts store post.id platform
                 (fun r => { r with status := .published, platform_post_id := result.postId, published_at := some env.now })
             else
               updatePlatformPosts store post.id platform
                 (fun r => { r with status := .failed, error_message := some (jsOr result.error "Unknown error") }))
        | .error e =>
            ({ success := false, error := some e },
             updatePlatformPosts store post.id platform
               (fun r => { r with status := .failed, error_message := some e }))
      else
        ({ success := false, error := some ("Unsupported platform: " ++ platform) }, store)

/-- `publishPost(post, userId)` (publisher.js 172-251).  The two `JSON.parse`
calls at the top may raise and escape the function; the loop then records one
result per platform, catching every per-platform failure. -/
def publishPost (env : Env) (store : Store) (post : Post) (userId : Nat) :
    Except String (List (String × DispatchResult) × Store) := do
  let platforms ← env.parseJson (jsOr post.platforms "[]")
  let mediaUrls ← env.parseJson (jsOr post.media_urls "[]")
  return platforms.foldl
    (fun (acc : List (String × DispatchResult) × Store) platform =>
      let res := attemptPlatform env acc.2 post userId mediaUrls platform
      (acc.1 ++ [(platform, res.1)], res.2))
    ([], store)

/-! ## Scheduling loop (scheduler.js 5-77) -/

/-- The WHERE clause of the due-post query (scheduler.js 9-17):
`p.status = 'scheduled' AND p.scheduled_at <= now`, the `JOIN users`
requiring the owning user to exist; a NULL `scheduled_at` fails the SQL
comparison. -/
def isDue (users : List Nat) (now : Nat) (p : Post) : Bool :=
  p.status = Status.scheduled &&
    (match p.scheduled_at with
     | some t => t ≤ now
     | none => false) &&
    users.contains p.user_id

/-- The order of `ORDER BY p.scheduled_at ASC` (every selected row has a
non-NULL `scheduled_at`, so the default is irrelevant on selected rows). -/
def scheduledLE (a b : Post) : Prop := a.scheduled_at.getD 0 ≤ b.scheduled_at.getD 0

instance : DecidableRel scheduledLE := fun a b =>
  inferInstanceAs (Decidable (a.scheduled_at.getD 0 ≤ b.scheduled_at.getD 0))

instance : IsTotal Post scheduledLE := ⟨fun _ _ => Nat.le_total _ _⟩

instance : IsTrans Post scheduledLE := ⟨fun _ _ _ => Nat.le_trans⟩

/-- The due-post selection (scheduler.js 9-17): filter on the WHERE clause,
sort ascending by `scheduled_at`, `LIMIT 10`. -/
def selectDue (store : Store) (now : Nat) : List Post :=
  (((store.posts.filter (isDue store.users now)).insertionSort scheduledLE).take 10)

/-- Aggregation of the per-platform outcomes (scheduler.js 36-40):
`allSuccess = Object.values(results).every(r => r.success)`,
`anySuccess = Object.values(results).some(r => r.success)`,
final status `published` / `partial` / `failed`. -/
def finalStatusOf (outcomes : List Bool) : Status :=
  if outcomes.all id then .published
  else if outcomes.any id then .partialStatus
  else .failed

/-- The final row update (scheduler.js 42-48): set the status and
`published_at = CASE WHEN status IN ('published','partial') THEN
CURRENT_TIMESTAMP ELSE NULL END`. -/
def applyFinalStatus (status : Status) (now : Nat) (p : Post) : Post :=
  { p with status := status, published_at := (if status = Status.published || status = Status.partialStatus then some now else none) }

/-- One iteration of the loop over the selected posts (scheduler.js 27-71):
claim the post (`processing`), dispatch it, aggregate and persist the final
status; an exception is caught and the post is marked `failed`
(scheduler.js 58-70). -/
def processOne (env : Env) (store : Store) (post : Post) : Store :=
  match publishPost env
      (updatePosts store post.id (fun p => { p with status := .processing }))
      post post.user_id with
  | .ok (results, store') =>
      updatePosts store' post.id
        (applyFinalStatus (finalStatusOf (results.map (fun r => r.2.success))) env.now)
  | .error _ =>
      updatePosts (updatePosts store post.id (fun p => { p with status := .processing }))
        post.id (fun p => { p with status := .failed })

/-- `processScheduledPosts()` (scheduler.js 5-77): select the due posts once,
then process them sequentially. -/
def processScheduledPosts (env : Env) (store : Store) : Store :=
  (selectDue store env.now).foldl (processOne env) store

/-! ## The publish-now route (`router.post('/:id/publish')`) -/

/-- The HTTP responses of the publish-now route. -/
inductive RouteResult where
  | notFound
  | alreadyPublished
  | ok (results : List (String × DispatchResult))
  | serverError (msg : String)
deriving DecidableEq, Repr

/-- `router.post('/:id/publish')` (posts routes, lines 269-301): look the post
up for the user, reject an already published one, call `publishPost`, then
set `status = 'published'` and stamp `published_at` unconditionally; an
exception is caught and answered with a 500 before the final update runs. -/
def publishNowRoute (env : Env) (store : Store) (postId : Nat) (userId : Nat) :
    RouteResult × Store :=
  match store.posts.find? (fun p => p.id = postId && p.user_id = userId) with
  | none => (.notFound, store)
  | some post =>
      if post.status = Status.published then (.alreadyPublished, store)
      else
        match publishPost env store post userId with
        | .ok res =>
            (.ok res.1,
             updatePosts res.2 postId
               (fun p => { p with status := .published, published_at := some env.now }))
        | .error e => (.serverError e, store)

/-! ## Optimal-time planner (scheduler.js 80-161) -/

def hourMs : Nat := 3600000

def dayMs : Nat := 86400000

/-- `toLocaleDateString('en-US', { weekday: 'long' })` on day number `day`:
day 0 of the epoch is a Thursday, as for the JS epoch. -/
def weekdayName (day : Nat) : String :=
  ["Sunday", "Monday", "Tuesday", "Wednesday", "Thursday", "Friday",
   "Saturday"].getD ((day + 4) % 7) ""

/-- The static best-window table of one platform. -/
structure OptimalTimes where
  bestDays : List String
  bestHours : List Nat
deriving DecidableEq, Repr

/-- `getOptimalPostingTimes(userId, platform)` (scheduler.js 80-108),
defaulting to the facebook table for an unknown platform. -/
def getOptimalPostingTimes (platform : String) : OptimalTimes :=
  if platform = "facebook" then ⟨["Tuesday", "Wednesday", "Thursday"], [9, 13, 16]⟩
  else if platform = "linkedin" then ⟨["Tuesday", "Wednesday", "Thursday"], [8, 10, 12]⟩
  else if platform = "twitter" then
    ⟨["Monday", "Tuesday", "Wednesday", "Thursday", "Friday"], [8, 12, 17]⟩
  else if platform = "instagram" then ⟨["Monday", "Wednesday", "Friday"], [11, 13, 19]⟩
  else ⟨["Tuesday", "Wednesday", "Thursday"], [9, 13, 16]⟩

/-- The inner hour loop (scheduler.js 122-129): the first slot on day number
`day` (`setHours(hour, 0, 0, 0)`) that is strictly after `now`. -/
def scanHours (day : Nat) (now : Nat) : List Nat → Option Nat
  | [] => none
  | h :: hs =>
      if now < day * dayMs + h * hourMs then some (day * dayMs + h * hourMs)
      else scanHours day now hs

/-- The outer day loop (scheduler.js 116-131) over the remaining day offsets:
`checkDate = now + dayOffset` days; when its weekday is a best day, try the
best hours on that day. -/
def scanDays (now : Nat) (bestDays : List String) (bestHours : List Nat) :
    List Nat → Option Nat
  | [] => none
  | d :: ds =>
      let day := (now + d * dayMs) / dayMs
      if bestDays.contains (weekdayName day) then
        match scanHours day now bestHours with
        | some slot => some slot
        | none => scanDays now bestDays bestHours ds
      else scanDays now bestDays bestHours ds

/-- `getNextOptimalSlot` for a given table (scheduler.js 111-138): scan day
offsets 0..6, else fall back to tomorrow at the first best hour
(`bestHours[0]`; the tables are never empty, so `headD 0` renders the JS
index 0). -/
def nextOptimalSlotFor (optimal : OptimalTimes) (now : Nat) : Nat :=
  match scanDays now optimal.bestDays optimal.bestHours (List.range 7) with
  | some slot => slot
  | none => (now / dayMs + 1) * dayMs + optimal.bestHours.headD 0 * hourMs

/-- `getNextOptimalSlot(platform)` (scheduler.js 111-138). -/
def getNextOptimalSlot (platform : String) (now : Nat) : Nat :=
  nextOptimalSlotFor (getOptimalPostingTimes platform) now

/-- `scheduleForOptimalTime(postId, platforms)` (scheduler.js 141-161): one
slot per platform, `reduce` to the earliest, persist it with status
`scheduled`.  On an empty platform list the JS `reduce` raises a TypeError. -/
def scheduleForOptimalTime (env : Env) (store : Store) (postId : Nat)
    (platforms : List String) : Except String (Store × Nat) :=
  match platforms.map (fun p => (p, getNextOptimalSlot p env.now)) with
  | [] => .error "Reduce of empty array with no initial value"
  | s :: rest =>
      let earliest := rest.foldl (fun e c => if c.2 < e.2 then c else e) s
      .ok (updatePosts store postId
             (fun p => { p with status := .scheduled, scheduled_at := some earliest.2 }),
           earliest.2)

/-! ## The due-post selection: C4 -/

/-- C4: every post returned by the due-post selection has status `scheduled`
and a `scheduled_at` at most `now`; the returned sequence is ascending in
`scheduled_at` and holds at most 10 posts.  (`selectDue` is a pure function of
the store: the selection itself has no side effects.) -/
theorem selectDue_spec (store : Store) (now : Nat) :
    (∀ q ∈ selectDue store now,
      q.status = Status.scheduled ∧ ∃ t, q.scheduled_at = some t ∧ t ≤ now) ∧
    (selectDue store now).length ≤ 10 ∧
    (selectDue store now).Pairwise scheduledLE := by
  refine ⟨?_, ?_, ?_⟩
  · intro q hq
    have h1 : q ∈ store.posts.filter (isDue store.users now) :=
      ((List.perm_insertionSort scheduledLE _).mem_iff).1 (List.mem_of_mem_take hq)
    have hd := List.of_mem_filter h1
    simp only [isDue, Bool.and_eq_true, decide_eq_true_eq] at hd
    refine ⟨hd.1.1, ?_⟩
    cases hs : q.scheduled_at with
    | none => rw [hs] at hd; exact absurd hd.1.2 (by simp)
    | some t =>
        rw [hs] at hd
        exact ⟨t, rfl, by simpa using hd.1.2⟩
  · exact List.length_take_le 10 _
  · exact List.Pairwise.sublist (List.take_sublist _ _)
      (List.sorted_insertionSort scheduledLE _)

/-! ## The optimal-time planner: C7 and C8 -/

/-- The JS `reduce` of `scheduleForOptimalTime` picks an element of the slot
list whose time component is minimal. -/
theorem foldl_earliest (s : String × Nat) (rest : List (String × Nat)) :
    (rest.foldl (fun e c => if c.2 < e.2 then c else e) s) ∈ s :: rest ∧
    ∀ u ∈ s :: rest, (rest.foldl (fun e c => if c.2 < e.2 then c else e) s).2 ≤ u.2 := by
  induction rest generalizing s with
  | nil => exact ⟨List.mem_singleton_self s, by simp⟩
  | cons c cs ih =>
      obtain ⟨ihm, ihb⟩ := ih (if c.2 < s.2 then c else s)
      simp only [List.foldl_cons]
      have hstep : (if c.2 < s.2 then c else s).2 ≤ c.2 ∧
          (if c.2 < s.2 then c else s).2 ≤ s.2 := by
        by_cases hc : c.2 < s.2 <;> simp [hc] <;> omega
      constructor
      · rcases List.mem_cons.mp ihm with h | h
        · rw [h]
          by_cases hc : c.2 < s.2 <;> simp [hc]
        · exact List.mem_cons_of_mem _ (List.mem_cons_of_mem _ h)
      · intro u hu
        rcases List.mem_cons.mp hu with h | h
        · subst h
          exact le_trans (ihb _ (List.mem_cons_self _ _)) hstep.2
        · rcases List.mem_cons.mp h with h' | h'
          · subst h'
            exact le_trans (ihb _ (List.mem_cons_self _ _)) hstep.1
          · exact ihb u (List.mem_cons_of_mem _ h')

/-- C7: on a non-empty platform list, `scheduleForOptimalTime` succeeds and
writes as `scheduled_at` the minimum of the per-platform earliest optimal
slots, setting the post's status to `scheduled`. -/
theorem scheduleForOptimalTime_spec (env : Env) (store : Store) (postId : Nat)
    (platforms : List String) (hne : platforms ≠ []) :
    ∃ store' t, scheduleForOptimalTime env store postId platforms = .ok (store', t) ∧
      t ∈ platforms.map (fun p => getNextOptimalSlot p env.now) ∧
      (∀ u ∈ platforms.map (fun p => getNextOptimalSlot p env.now), t ≤ u) ∧
      ∀ q ∈ store'.posts, q.id = postId →
        q.status = Status.scheduled ∧ q.scheduled_at = some t := by
  cases platforms with
  | nil => exact absurd rfl hne
  | cons p ps =>
      obtain ⟨hm, hb⟩ := foldl_earliest (p, getNextOptimalSlot p env.now)
        (ps.map (fun q => (q, getNextOptimalSlot q env.now)))
      refine ⟨_, _, rfl, ?_, ?_, ?_⟩
      · have h2 := List.mem_map_of_mem Prod.snd hm
        simpa [List.map_map, Function.comp] using h2
      · intro u hu
        obtain ⟨q, hq, rfl⟩ := List.mem_map.mp hu
        have h3 : (q, getNextOptimalSlot q env.now) ∈
            (p, getNextOptimalSlot p env.now) ::
              List.map (fun q => (q, getNextOptimalSlot q env.now)) ps := by
          simpa using List.mem_map_of_mem (fun q => (q, getNextOptimalSlot q env.now)) hq
        exact hb _ h3
      · intro q hq hid
        simp only [updatePosts, List.mem_map] at hq
        obtain ⟨r, _, hr⟩ := hq
        by_cases hrid : r.id = postId
        · rw [← hr]
          simp [hrid]
        · rw [← hr] at hid
          simp [hrid] at hid

/-- Modelled from the claim's wording of the scan: the candidate instants, in
scan order — day offsets 0 through 6 from `now`; on each candidate date whose
weekday is in the preferred-day set, each preferred hour in table order gives
the instant `date at hour`, kept when strictly greater than `now` — and the
returned slot is the first candidate, else tomorrow at the first preferred
hour. -/
def specCandidateSlots (optimal : OptimalTimes) (now : Nat) : List Nat :=
  (List.range 7).flatMap (fun d =>
    if optimal.bestDays.contains (weekdayName ((now + d * dayMs) / dayMs)) then
      optimal.bestHours.filterMap (fun h =>
        if now < ((now + d * dayMs) / dayMs) * dayMs + h * hourMs
        then some (((now + d * dayMs) / dayMs) * dayMs + h * hourMs) else none)
    else [])

/-- Modelled from the claim's wording: first candidate of the 7-day scan, else
the tomorrow fallback. -/
def specNextOptimalSlot (optimal : OptimalTimes) (now : Nat) : Nat :=
  match specCandidateSlots optimal now with
  | [] => (now / dayMs + 1) * dayMs + optimal.bestHours.headD 0 * hourMs
  | c :: _ => c

theorem scanHours_eq_head (day now : Nat) (hours : List Nat) :
    scanHours day now hours = (hours.filterMap (fun h =>
      if now < day * dayMs + h * hourMs then some (day * dayMs + h * hourMs)
      else none)).head? := by
  induction hours with
  | nil => rfl
  | cons h hs ih =>
      by_cases hc : now < day * dayMs + h * hourMs
      · simp [scanHours, hc]
      · simp [scanHours, hc, ih]

theorem scanDays_eq_head (now : Nat) (bestDays : List String) (bestHours : List Nat)
    (offsets : List Nat) :
    scanDays now bestDays bestHours offsets = (offsets.flatMap (fun d =>
      if bestDays.contains (weekdayName ((now + d * dayMs) / dayMs)) then
        bestHours.filterMap (fun h =>
          if now < ((now + d * dayMs) / dayMs) * dayMs + h * hourMs
          then some (((now + d * dayMs) / dayMs) * dayMs + h * hourMs) else none)
      else [])).head? := by
  induction offsets with
  | nil => rfl
  | cons d ds ih =>
      rw [List.flatMap_cons]
      by_cases hc : bestDays.contains (weekdayName ((now + d * dayMs) / dayMs))
      · simp only [scanDays, hc, if_true]
        rw [scanHours_eq_head]
        cases hh : (bestHours.filterMap (fun h =>
            if now < ((now + d * dayMs) / dayMs) * dayMs + h * hourMs
            then some (((now + d * dayMs) / dayMs) * dayMs + h * hourMs) else none)) with
        | nil => simpa [hh] using ih
        | cons c cs => simp [hh]
      · simp only [scanDays, hc, if_false]
        simpa [hc] using ih

/-- C8: for every platform, `getNextOptimalSlot` computes exactly the slot the
claim describes — scan day offsets 0..6 from `now`, on preferred days take the
first preferred-hour instant strictly greater than `now`, else fall back to
tomorrow at the first preferred hour — and on the claim's example (preferred
days `{Tuesday}`, hours `{9}`, `now` a Wednesday at 10:00) the result is the
following Tuesday at 09:00. -/
theorem getNextOptimalSlot_spec :
    (∀ platform now, getNextOptimalSlot platform now =
      specNextOptimalSlot (getOptimalPostingTimes platform) now) ∧
    nextOptimalSlotFor ⟨["Tuesday"], [9]⟩ (6 * dayMs + 10 * hourMs) =
      12 * dayMs + 9 * hourMs := by
  have key : ∀ optimal now, nextOptimalSlotFor optimal now = specNextOptimalSlot optimal now := by
    intro optimal now
    unfold nextOptimalSlotFor specNextOptimalSlot specCandidateSlots
    rw [scanDays_eq_head]
    cases h : ((List.range 7).flatMap (fun d =>
        if optimal.bestDays.contains (weekdayName ((now + d * dayMs) / dayMs)) then
          optimal.bestHours.filterMap (fun hr =>
            if now < ((now + d * dayMs) / dayMs) * dayMs + hr * hourMs
            then some (((now + d * dayMs) / dayMs) * dayMs + hr * hourMs)
            else none)
        else [])) with
    | nil => simp [h]
    | cons c cs => simp [h]
  exact ⟨fun platform now => key _ _, by decide⟩

/-! ## Per-platform isolation of the dispatcher: C5 -/

/-- The per-platform result `publishPost` records for one platform: the caught
outcome of that platform's attempt against a given store. -/
def attemptResult (env : Env) (store : Store) (post : Post) (userId : Nat)
    (mediaUrls : List String) (platform : String) : DispatchResult :=
  (attemptPlatform env store post userId mediaUrls platform).1

/-- Two stores present the dispatcher with the same view: the same accounts
and the same per-platform content overrides. -/
def SameDispatchView (s t : Store) : Prop :=
  s.accounts = t.accounts ∧
    ∀ pid p, ((findPlatformPost s pid p).bind PlatformPost.content) =
      ((findPlatformPost t pid p).bind PlatformPost.content)

theorem sameDispatchView_refl (s : Store) : SameDispatchView s s := ⟨rfl, fun _ _ => rfl⟩

theorem sameDispatchView_trans {s t u : Store} (h1 : SameDispatchView s t)
    (h2 : SameDispatchView t u) : SameDispatchView s u :=
  ⟨h1.1.trans h2.1, fun pid p => (h1.2 pid p).trans (h2.2 pid p)⟩

/-- A key- and content-preserving rewrite of the rows does not change what a
content lookup sees. -/
theorem find?_map_bind_content (rows : List PlatformPost) (g : PlatformPost → PlatformPost)
    (hg : ∀ r, (g r).post_id = r.post_id ∧ (g r).platform = r.platform ∧
      (g r).content = r.content) (pid : Nat) (p : String) :
    ((rows.map g).find? (fun r => r.post_id = pid && r.platform = p)).bind
        PlatformPost.content =
      (rows.find? (fun r => r.post_id = pid && r.platform = p)).bind
        PlatformPost.content := by
  induction rows with
  | nil => rfl
  | cons r rs ih =>
      obtain ⟨h1, h2, h3⟩ := hg r
      simp only [List.map_cons, List.find?_cons, h1, h2]
      by_cases hkey : (decide (r.post_id = pid) && decide (r.platform = p)) = true
      · simp [hkey, h3]
      · simp only [Bool.not_eq_true] at hkey
        simp only [hkey]
        exact ih

/-- The condition under which `updatePlatformPosts` keeps the dispatch view:
the row function keeps the two key columns and the content column. -/
def KeepsView (f : PlatformPost → PlatformPost) : Prop :=
  ∀ r, (f r).post_id = r.post_id ∧ (f r).platform = r.platform ∧ (f r).content = r.content

theorem sameDispatchView_updatePlatformPosts (s : Store) (pid : Nat) (p : String)
    (f : PlatformPost → PlatformPost) (hf : KeepsView f) :
    SameDispatchView (updatePlatformPosts s pid p f) s := by
  refine ⟨rfl, fun pid' p' => ?_⟩
  have hg : KeepsView (fun r => if r.post_id = pid && r.platform = p then f r else r) := by
    intro r
    by_cases hkey : (r.post_id = pid && r.platform = p) = true
    · simpa [hkey] using hf r
    · simp [hkey]
  exact find?_map_bind_content s.platform_posts _ hg pid' p'

theorem findAccount_congr {s t : Store} (h : s.accounts = t.accounts)
    (uid : Nat) (p : String) : findAccount s uid p = findAccount t uid p := by
  unfold findAccount
  rw [h]

theorem platformContent_congr {s t : Store} (h : SameDispatchView s t)
    (post : Post) (p : String) : platformContent s post p = platformContent t post p := by
  unfold platformContent
  rw [h.2]

/-- The recorded result of one platform's attempt depends on the store only
through the dispatch view. -/
theorem attemptResult_congr {s t : Store} (h : SameDispatchView s t) (env : Env)
    (post : Post) (uid : Nat) (media : List String) (p : String) :
    attemptResult env s post uid media p = attemptResult env t post uid media p := by
  unfold attemptResult attemptPlatform
  rw [findAccount_congr h.1]
  simp only [platformContent_congr h]
  cases findAccount t uid p with
  | none => rfl
  | some account =>
      by_cases hc : hasClient p
      · simp only [hc, if_true]
        cases clientPost env p account (platformContent t post p) media with
        | ok result => rfl
        | error e => rfl
      · simp [hc]

/-- One platform's attempt only performs a key- and content-preserving
`platform_posts` update, so it keeps the dispatch view. -/
theorem sameDispatchView_attemptPlatform (env : Env) (s : Store) (post : Post)
    (uid : Nat) (media : List String) (p : String) :
    SameDispatchView (attemptPlatform env s post uid media p).2 s := by
  unfold attemptPlatform
  cases findAccount s uid p with
  | none =>
      exact sameDispatchView_updatePlatformPosts s post.id p _ (fun r => ⟨rfl, rfl, rfl⟩)
  | some account =>
      by_cases hc : hasClient p
      · simp only [hc, if_true]
        cases clientPost env p account (platformContent s post p) media with
        | ok result =>
            by_cases hs : result.success
            · simp only [hs, if_true]
              exact sameDispatchView_updatePlatformPosts s post.id p _
                (fun r => ⟨rfl, rfl, rfl⟩)
            · simp only [hs, if_false]
              exact sameDispatchView_updatePlatformPosts s post.id p _
                (fun r => ⟨rfl, rfl, rfl⟩)
        | error e =>
            exact sameDispatchView_updatePlatformPosts s post.id p _
              (fun r => ⟨rfl, rfl, rfl⟩)
      · simp only [hc, if_false]
        exact sameDispatchView_refl s

theorem updatePlatformPosts_mem (s : Store) (pid : Nat) (p : String)
    (f : PlatformPost → PlatformPost) (hf : KeepsView f) :
    ∀ q ∈ (updatePlatformPosts s pid p f).platform_posts,
      q ∈ s.platform_posts ∨ (q.post_id = pid ∧ q.platform = p) := by
  intro q hq
  obtain ⟨r, hr, hgr⟩ := List.mem_map.mp hq
  by_cases hkey : (r.post_id = pid && r.platform = p) = true
  · right
    rw [← hgr]
    simp only [hkey, if_true]
    obtain ⟨h1, h2, _⟩ := hf r
    simp only [Bool.and_eq_true, decide_eq_true_eq] at hkey
    exact ⟨h1.trans hkey.1, h2.trans hkey.2⟩
  · left
    rw [← hgr]
    simp only [hkey, if_false]
    exact hr

/-- One platform's attempt touches only that platform's rows of this post. -/
theorem attemptPlatform_pp_mem (env : Env) (s : Store) (post : Post) (uid : Nat)
    (media : List String) (p : String) :
    ∀ q ∈ (attemptPlatform env s post uid media p).2.platform_posts,
      q ∈ s.platform_posts ∨ (q.post_id = post.id ∧ q.platform = p) := by
  unfold attemptPlatform
  cases findAccount s uid p with
  | none => exact updatePlatformPosts_mem s post.id p _ (fun r => ⟨rfl, rfl, rfl⟩)
  | some account =>
      by_cases hc : hasClient p
      · simp only [hc, if_true]
        cases clientPost env p account (platformContent s post p) media with
        | ok result =>
            by_cases hs : result.success
            · simp only [hs, if_true]
              exact updatePlatformPosts_mem s post.id p _ (fun r => ⟨rfl, rfl, rfl⟩)
            · simp only [hs, if_false]
              exact updatePlatformPosts_mem s post.id p _ (fun r => ⟨rfl, rfl, rfl⟩)
        | error e => exact updatePlatformPosts_mem s post.id p _ (fun r => ⟨rfl, rfl, rfl⟩)
      · simp only [hc, if_false]
        exact fun q hq => Or.inl hq

/-- The loop of `publishPost`: the recorded results are the per-platform
attempts against any store with the same dispatch view, independent of the
updates made for the platforms already processed, and the dispatch view is
preserved. -/
theorem publishLoop_results (env : Env) (post : Post) (uid : Nat) (media : List String)
    (t : Store) (l : List String) :
    ∀ (acc : List (String × DispatchResult)) (s : Store), SameDispatchView s t →
      (l.foldl (fun acc platform =>
          let res := attemptPlatform env acc.2 post uid media platform
          (acc.1 ++ [(platform, res.1)], res.2)) (acc, s)).1 =
        acc ++ l.map (fun p => (p, attemptResult env t post uid media p)) ∧
      SameDispatchView (l.foldl (fun acc platform =>
          let res := attemptPlatform env acc.2 post uid media platform
          (acc.1 ++ [(platform, res.1)], res.2)) (acc, s)).2 t := by
  induction l with
  | nil =>
      intro acc s h
      exact ⟨by simp, h⟩
  | cons p ps ih =>
      intro acc s h
      have hr : (attemptPlatform env s post uid media p).1 =
          attemptResult env t post uid media p :=
        attemptResult_congr h env post uid media p
      have hs1 : SameDispatchView (attemptPlatform env s post uid media p).2 t :=
        sameDispatchView_trans (sameDispatchView_attemptPlatform env s post uid media p) h
      obtain ⟨ih1, ih2⟩ := ih (acc ++ [(p, (attemptPlatform env s post uid media p).1)])
        ((attemptPlatform env s post uid media p).2) hs1
      refine ⟨?_, ih2⟩
      simp only [List.foldl_cons]
      rw [ih1, hr]
      simp

/-- The loop of `publishPost` touches only `platform_posts` rows of this post
and of platforms in the processed list. -/
theorem publishLoop_pp_mem (env : Env) (post : Post) (uid : Nat) (media : List String)
    (l : List String) :
    ∀ (acc : List (String × DispatchResult)) (s : Store),
      ∀ q ∈ ((l.foldl (fun acc platform =>
          let res := attemptPlatform env acc.2 post uid media platform
          (acc.1 ++ [(platform, res.1)], res.2)) (acc, s)).2).platform_posts,
        q ∈ s.platform_posts ∨ (q.post_id = post.id ∧ q.platform ∈ l) := by
  induction l with
  | nil => exact fun acc s q hq => Or.inl hq
  | cons p ps ih =>
      intro acc s q hq
      rw [List.foldl_cons] at hq
      rcases ih _ _ q hq with h | h
      · rcases attemptPlatform_pp_mem env s post uid media p q h with h' | h'
        · exact Or.inl h'
        · exact Or.inr ⟨h'.1, h'.2 ▸ List.mem_cons_self _ _⟩
      · exact Or.inr ⟨h.1, List.mem_cons_of_mem _ h.2⟩

/-- C5: when the two `JSON.parse` calls succeed, `publishPost` returns
normally with exactly one recorded outcome per target platform, each computed
independently of the other platforms (so no platform's failure aborts the
loop); a missing connected account, a raised adapter error and the instagram
missing-media precondition each become a failed `DispatchResult` for that
platform; and the only `platform_posts` rows touched belong to this post's
target platforms. -/
theorem publishPost_per_platform_isolation (env : Env) (store : Store) (post : Post)
    (userId : Nat) (platforms media : List String)
    (hp : env.parseJson (jsOr post.platforms "[]") = .ok platforms)
    (hm : env.parseJson (jsOr post.media_urls "[]") = .ok media) :
    ∃ results store', publishPost env store post userId = .ok (results, store') ∧
      results = platforms.map (fun p => (p, attemptResult env store post userId media p)) ∧
      (∀ q ∈ store'.platform_posts, q ∈ store.platform_posts ∨
        (q.post_id = post.id ∧ q.platform ∈ platforms)) ∧
      (∀ p, findAccount store userId p = none →
        attemptResult env store post userId media p =
          { success := false, error := some ("No connected " ++ p ++ " account found") }) ∧
      (∀ p account e, findAccount store userId p = some account → hasClient p = true →
        clientPost env p account (platformContent store post p) media = .error e →
        attemptResult env store post userId media p =
          { success := false, error := some e }) ∧
      (∀ account, findAccount store userId "instagram" = some account → media = [] →
        attemptResult env store post userId media "instagram" =
          { success := false, error := some "Instagram requires at least one image",
            skipped := true }) := by
  have hpub : publishPost env store post userId = .ok (platforms.foldl
      (fun acc platform =>
        let res := attemptPlatform env acc.2 post userId media platform
        (acc.1 ++ [(platform, res.1)], res.2)) ([], store)) := by
    unfold publishPost
    rw [hp, hm]
    rfl
  obtain ⟨h1, _⟩ := publishLoop_results env post userId media store platforms [] store
    (sameDispatchView_refl store)
  refine ⟨_, _, hpub, by simpa using h1, ?_, ?_, ?_, ?_⟩
  · exact publishLoop_pp_mem env post userId media platforms [] store
  · intro p hnone
    unfold attemptResult attemptPlatform
    rw [hnone]
  · intro p account e hsome hc herr
    unfold attemptResult attemptPlatform
    rw [hsome]
    simp only [hc, if_true, herr]
  · intro account hsome hmedia
    subst hmedia
    unfold attemptResult attemptPlatform
    rw [hsome]
    rfl

/-! ## Scheduling-tick machinery: C1, C3, C6, C9 -/

/-- The statuses a processed post can end a tick in. -/
def isFinal (s : Status) : Prop :=
  s = Status.published ∨ s = Status.partialStatus ∨ s = Status.failed

theorem finalStatusOf_isFinal (outcomes : List Bool) : isFinal (finalStatusOf outcomes) := by
  by_cases h1 : outcomes.all id = true
  · simp [finalStatusOf, h1, isFinal]
  · by_cases h2 : outcomes.any id = true <;> simp [finalStatusOf, h1, h2, isFinal]

theorem mem_updatePosts {store : Store} {pid : Nat} {f : Post → Post} {q : Post}
    (hq : q ∈ (updatePosts store pid f).posts) :
    ∃ r ∈ store.posts, q = if r.id = pid then f r else r := by
  simp only [updatePosts, List.mem_map] at hq
  obtain ⟨r, hr, hrq⟩ := hq
  exact ⟨r, hr, hrq.symm⟩

theorem sameDispatchView_updatePosts (s : Store) (pid : Nat) (f : Post → Post) :
    SameDispatchView (updatePosts s pid f) s :=
  ⟨rfl, fun _ _ => rfl⟩

/-- Unfolding of a successful `publishPost`. -/
theorem publishPost_ok_inv {env : Env} {s : Store} {post : Post} {uid : Nat}
    {r : List (String × DispatchResult)} {s' : Store}
    (h : publishPost env s post uid = .ok (r, s')) :
    ∃ platforms media, env.parseJson (jsOr post.platforms "[]") = .ok platforms ∧
      env.parseJson (jsOr post.media_urls "[]") = .ok media ∧
      platforms.foldl (fun acc platform =>
        let res := attemptPlatform env acc.2 post uid media platform
        (acc.1 ++ [(platform, res.1)], res.2)) ([], s) = (r, s') := by
  unfold publishPost at h
  cases hp : env.parseJson (jsOr post.platforms "[]") with
  | error e =>
      rw [hp] at h
      simp only [bind, Except.bind, Functor.map, Except.map] at h
      exact absurd h (by simp)
  | ok platforms =>
      rw [hp] at h
      cases hm : env.parseJson (jsOr post.media_urls "[]") with
      | error e =>
          rw [hm] at h
          simp only [bind, Except.bind, Functor.map, Except.map] at h
          exact absurd h (by simp)
      | ok media =>
          rw [hm] at h
          simp only [bind, Except.bind, Functor.map, Except.map, pure, Except.pure,
            Except.ok.injEq] at h
          exact ⟨platforms, media, rfl, rfl, h⟩

/-- A parse failure of the platforms column makes `publishPost` raise, on any
store. -/
theorem publishPost_error_of_parse {env : Env} {post : Post} (uid : Nat) (e : String)
    (h : env.parseJson (jsOr post.platforms "[]") = .error e) (s : Store) :
    publishPost env s post uid = .error e := by
  unfold publishPost
  rw [h]
  rfl

theorem sameDispatchView_publishPost {env : Env} {s : Store} {post : Post} {uid : Nat}
    {r : List (String × DispatchResult)} {s' : Store}
    (h : publishPost env s post uid = .ok (r, s')) : SameDispatchView s' s := by
  obtain ⟨platforms, media, _, _, heq⟩ := publishPost_ok_inv h
  have h2 := (publishLoop_results env post uid media s platforms [] s
    (sameDispatchView_refl s)).2
  rw [heq] at h2
  exact h2

theorem attemptPlatform_posts (env : Env) (s : Store) (post : Post) (uid : Nat)
    (media : List String) (p : String) :
    (attemptPlatform env s post uid media p).2.posts = s.posts := by
  unfold attemptPlatform
  cases findAccount s uid p with
  | none => rfl
  | some account =>
      by_cases hc : hasClient p
      · simp only [hc, if_true]
        cases clientPost env p account (platformContent s post p) media with
        | ok result => by_cases hs : result.success <;> simp [hs, updatePlatformPosts]
        | error e => rfl
      · simp [hc]

theorem publishLoop_posts (env : Env) (post : Post) (uid : Nat) (media : List String)
    (l : List String) :
    ∀ (acc : List (String × DispatchResult)) (s : Store),
      ((l.foldl (fun acc platform =>
          let res := attemptPlatform env acc.2 post uid media platform
          (acc.1 ++ [(platform, res.1)], res.2)) (acc, s)).2).posts = s.posts := by
  induction l with
  | nil => exact fun acc s => rfl
  | cons p ps ih =>
      intro acc s
      rw [List.foldl_cons]
      rw [ih _ ((attemptPlatform env s post uid media p).2)]
      exact attemptPlatform_posts env s post uid media p

theorem publishPost_posts {env : Env} {s : Store} {post : Post} {uid : Nat}
    {r : List (String × DispatchResult)} {s' : Store}
    (h : publishPost env s post uid = .ok (r, s')) : s'.posts = s.posts := by
  obtain ⟨platforms, media, _, _, heq⟩ := publishPost_ok_inv h
  have h2 := publishLoop_posts env post uid media platforms [] s
  rw [heq] at h2
  exact h2

/-- After processing one selected post, every row with that post's id carries a
final status, and every other row is an untouched row of the input store. -/
theorem processOne_posts_mem (env : Env) (store : Store) (post : Post) :
    ∀ q ∈ (processOne env store post).posts,
      (q.id = post.id ∧ isFinal q.status) ∨ (q.id ≠ post.id ∧ q ∈ store.posts) := by
  intro q hq
  unfold processOne at hq
  cases hpub : publishPost env
      (updatePosts store post.id (fun p => { p with status := Status.processing }))
      post post.user_id with
  | ok pr =>
      rw [hpub] at hq
      obtain ⟨r, hr, hrq⟩ := mem_updatePosts hq
      rw [publishPost_posts hpub] at hr
      obtain ⟨r0, hr0, hrr0⟩ := mem_updatePosts hr
      by_cases hid0 : r0.id = post.id
      · have hrid : r.id = post.id := by rw [hrr0]; simp [hid0]
        left
        rw [hrq]
        simp only [hrid, if_true]
        exact ⟨hrid, finalStatusOf_isFinal _⟩
      · have hrr : r = r0 := by rw [hrr0]; simp [hid0]
        have hrid : r.id ≠ post.id := by rw [hrr]; exact hid0
        right
        rw [hrq]
        simp only [hrid, if_false]
        exact ⟨hrid, hrr ▸ hr0⟩
  | error e =>
      rw [hpub] at hq
      obtain ⟨r, hr, hrq⟩ := mem_updatePosts hq
      obtain ⟨r0, hr0, hrr0⟩ := mem_updatePosts hr
      by_cases hid0 : r0.id = post.id
      · have hrid : r.id = post.id := by rw [hrr0]; simp [hid0]
        left
        rw [hrq]
        simp only [hrid, if_true]
        exact ⟨trivial, Or.inr (Or.inr rfl)⟩
      · have hrr : r = r0 := by rw [hrr0]; simp [hid0]
        have hrid : r.id ≠ post.id := by rw [hrr]; exact hid0
        right
        rw [hrq]
        simp only [hrid, if_false]
        exact ⟨hrid, hrr ▸ hr0⟩

theorem sameDispatchView_processOne (env : Env) (s : Store) (post : Post) :
    SameDispatchView (processOne env s post) s := by
  unfold processOne
  cases hpub : publishPost env
      (updatePosts s post.id (fun p => { p with status := Status.processing }))
      post post.user_id with
  | ok pr =>
      exact sameDispatchView_trans (sameDispatchView_updatePosts _ _ _)
        (sameDispatchView_trans (sameDispatchView_publishPost hpub)
          (sameDispatchView_updatePosts _ _ _))
  | error e =>
      exact sameDispatchView_trans (sameDispatchView_updatePosts _ _ _)
        (sameDispatchView_updatePosts _ _ _)

/-- After the per-post step, every row with the processed post's id is final. -/
theorem processOne_marks_final (env : Env) (s : Store) (post : Post) :
    ∀ q ∈ (processOne env s post).posts, q.id = post.id → isFinal q.status := by
  intro q hq hid
  rcases processOne_posts_mem env s post q hq with ⟨_, hfin⟩ | ⟨hne, _⟩
  · exact hfin
  · exact absurd hid hne

/-- Later iterations of the loop keep a property of the rows of an id they do
not touch. -/
theorem foldl_processOne_preserves (env : Env) (P : Post → Prop) (pid : Nat) :
    ∀ (l : List Post), (∀ b ∈ l, b.id ≠ pid) →
      ∀ (s : Store), (∀ q ∈ s.posts, q.id = pid → P q) →
        ∀ q ∈ (l.foldl (processOne env) s).posts, q.id = pid → P q := by
  intro l
  induction l with
  | nil => exact fun _ s h => h
  | cons a t ih =>
      intro hl s h
      rw [List.foldl_cons]
      apply ih (fun b hb => hl b (List.mem_cons_of_mem _ hb))
      intro q hq hqid
      rcases processOne_posts_mem env s a q hq with ⟨hqa, _⟩ | ⟨_, hmem⟩
      · exact absurd (hqa.symm.trans hqid) (hl a (List.mem_cons_self _ _))
      · exact h q hmem hqid

/-- Any property is kept once established, as long as changed rows are final. -/
theorem foldl_processOne_preserves_final (env : Env) (pid : Nat) :
    ∀ (l : List Post) (s : Store), (∀ q ∈ s.posts, q.id = pid → isFinal q.status) →
      ∀ q ∈ (l.foldl (processOne env) s).posts, q.id = pid → isFinal q.status := by
  intro l
  induction l with
  | nil => exact fun s h => h
  | cons a t ih =>
      intro s h
      rw [List.foldl_cons]
      apply ih
      intro q hq hqid
      rcases processOne_posts_mem env s a q hq with ⟨_, hfin⟩ | ⟨_, hmem⟩
      · exact hfin
      · exact h q hmem hqid

/-- Every post of the processed batch ends the loop with a final status. -/
theorem foldl_processOne_mem_final (env : Env) (post : Post) :
    ∀ (l : List Post), post ∈ l → ∀ (s : Store),
      ∀ q ∈ (l.foldl (processOne env) s).posts, q.id = post.id → isFinal q.status := by
  intro l
  induction l with
  | nil => intro h; exact absurd h (List.not_mem_nil _)
  | cons a t ih =>
      intro hmem s
      rw [List.foldl_cons]
      rcases List.mem_cons.mp hmem with h | h
      · subst h
        exact foldl_processOne_preserves_final env post.id t (processOne env s post)
          (processOne_marks_final env s post)
      · exact ih h (processOne env s a)

/-- Reaching the step of one selected post inside the loop: a property of the
step, valid at every store with the original dispatch view, holds of that
post's rows at the end of the loop, provided no later post shares its id. -/
theorem foldl_processOne_reach (env : Env) (t : Store) (post : Post) (P : Post → Prop)
    (hstep : ∀ s, SameDispatchView s t →
      ∀ q ∈ (processOne env s post).posts, q.id = post.id → P q) :
    ∀ (l : List Post), post ∈ l → (l.map Post.id).Nodup →
      ∀ (s : Store), SameDispatchView s t →
        ∀ q ∈ (l.foldl (processOne env) s).posts, q.id = post.id → P q := by
  intro l
  induction l with
  | nil => intro h; exact absurd h (List.not_mem_nil _)
  | cons a ts ih =>
      intro hmem hnd s hview
      rw [List.foldl_cons]
      rw [List.map_cons] at hnd
      obtain ⟨hnda, hndt⟩ := List.nodup_cons.mp hnd
      rcases List.mem_cons.mp hmem with h | h
      · subst h
        refine foldl_processOne_preserves env P post.id ts ?_ (processOne env s post)
          (hstep s hview)
        intro b hb hbid
        exact hnda (hbid ▸ List.mem_map_of_mem Post.id hb)
      · exact ih h hndt (processOne env s a)
          (sameDispatchView_trans (sameDispatchView_processOne env s a) hview)

/-- The ids of the selected batch are distinct when the ids of the posts table
are (the id is the table's primary key). -/
theorem selectDue_map_id_nodup {store : Store} (now : Nat)
    (hnd : (store.posts.map Post.id).Nodup) :
    ((selectDue store now).map Post.id).Nodup := by
  have h1 : ((store.posts.filter (isDue store.users now)).map Post.id).Nodup :=
    hnd.sublist (List.Sublist.map Post.id (List.filter_sublist _))
  have h2 : (((store.posts.filter (isDue store.users now)).insertionSort
      scheduledLE).map Post.id).Nodup :=
    ((List.perm_insertionSort scheduledLE _).map Post.id).nodup_iff.mpr h1
  exact h2.sublist (List.Sublist.map Post.id (List.take_sublist _ _))

/-- The per-post step on the success path: the post's rows get exactly the
aggregated status, and `published_at` exactly as the `CASE WHEN` writes it. -/
theorem processOne_ok_spec (env : Env) (t : Store) (post : Post)
    (platforms media : List String)
    (hp : env.parseJson (jsOr post.platforms "[]") = .ok platforms)
    (hm : env.parseJson (jsOr post.media_urls "[]") = .ok media)
    (s : Store) (hview : SameDispatchView s t) :
    ∀ q ∈ (processOne env s post).posts, q.id = post.id →
      q.status = finalStatusOf (platforms.map
        (fun p => (attemptResult env t post post.user_id media p).success)) ∧
      q.published_at = (if finalStatusOf (platforms.map
            (fun p => (attemptResult env t post post.user_id media p).success)) =
              Status.published ∨
            finalStatusOf (platforms.map
              (fun p => (attemptResult env t post post.user_id media p).success)) =
              Status.partialStatus
          then some env.now else none) := by
  intro q hq hid
  have hclaim : SameDispatchView
      (updatePosts s post.id (fun p => { p with status := Status.processing })) t :=
    sameDispatchView_trans (sameDispatchView_updatePosts s post.id _) hview
  have hpub : publishPost env
      (updatePosts s post.id (fun p => { p with status := Status.processing }))
      post post.user_id = .ok (platforms.foldl
        (fun acc platform =>
          let res := attemptPlatform env acc.2 post post.user_id media platform
          (acc.1 ++ [(platform, res.1)], res.2))
        ([], updatePosts s post.id (fun p => { p with status := Status.processing }))) := by
    unfold publishPost
    rw [hp, hm]
    rfl
  obtain ⟨hres, _⟩ := publishLoop_results env post post.user_id media t platforms []
    (updatePosts s post.id (fun p => { p with status := Status.processing })) hclaim
  unfold processOne at hq
  cases hpub' : publishPost env
      (updatePosts s post.id (fun p => { p with status := Status.processing }))
      post post.user_id with
  | error e =>
      rw [hpub'] at hpub
      exact absurd hpub (by simp)
  | ok pr =>
      rw [hpub'] at hq hpub
      have hpr := Except.ok.inj hpub
      have h1 : pr.1 = platforms.map
          (fun p => (p, attemptResult env t post post.user_id media p)) := by
        rw [hpr]
        simpa using hres
      obtain ⟨r, hr, hrq⟩ := mem_updatePosts hq
      by_cases hrid : r.id = post.id
      · rw [hrq]
        simp only [hrid, if_true]
        have hmm : List.map (fun r => r.2.success) pr.1 =
            platforms.map (fun p => (attemptResult env t post post.user_id media p).success) := by
          rw [h1, List.map_map]
          rfl
        constructor
        · simp only [applyFinalStatus]
          rw [hmm]
        · simp only [applyFinalStatus]
          rw [hmm]
          rcases finalStatusOf_isFinal (platforms.map
              (fun p => (attemptResult env t post post.user_id media p).success))
            with h | h | h <;> simp [h]
      · rw [hrq] at hid
        simp [hrid] at hid

/-- C3 (amended to the selected batch, the code applying `LIMIT 10`): every
post selected by the due-post selection ends the tick in one of the statuses
published, partial, failed — never `scheduled`, never `processing`. -/
theorem processScheduledPosts_selected_final (env : Env) (store : Store) (post : Post)
    (hmem : post ∈ selectDue store env.now) :
    ∀ q ∈ (processScheduledPosts env store).posts, q.id = post.id →
      q.status = Status.published ∨ q.status = Status.partialStatus ∨
        q.status = Status.failed :=
  foldl_processOne_mem_final env post (selectDue store env.now) hmem store

/-- C6: when processing one selected post raises (the `JSON.parse` of its
platforms column), the per-post boundary catches it, the post is marked
`failed`, and every selected post of the batch still reaches a final status
(the loop proceeds). -/
theorem processScheduledPosts_post_error (env : Env) (store : Store) (post : Post)
    (hmem : post ∈ selectDue store env.now)
    (hnd : (store.posts.map Post.id).Nodup)
    (e : String)
    (hthrow : env.parseJson (jsOr post.platforms "[]") = .error e) :
    (∀ q ∈ (processScheduledPosts env store).posts, q.id = post.id →
      q.status = Status.failed) ∧
    (∀ p' ∈ selectDue store env.now, ∀ q ∈ (processScheduledPosts env store).posts,
      q.id = p'.id → q.status = Status.published ∨ q.status = Status.partialStatus ∨
        q.status = Status.failed) := by
  constructor
  · refine foldl_processOne_reach env store post (fun q => q.status = Status.failed) ?_
      (selectDue store env.now) hmem (selectDue_map_id_nodup env.now hnd) store
      (sameDispatchView_refl store)
    intro s _ q hq hid
    unfold processOne at hq
    rw [publishPost_error_of_parse post.user_id e hthrow _] at hq
    obtain ⟨r, _, hrq⟩ := mem_updatePosts hq
    by_cases hrid : r.id = post.id
    · rw [hrq]
      simp [hrid]
    · rw [hrq] at hid
      simp [hrid] at hid
  · exact fun p' hp' => foldl_processOne_mem_final env p' (selectDue store env.now) hp' store

/-- C9: for a selected post whose dispatch completes (publishPost returns the
outcome map), the tick stamps `published_at` with the current time exactly
when the final status is published or partial, and leaves it unset when the
final status is failed. -/
theorem processScheduledPosts_published_at (env : Env) (store : Store) (post : Post)
    (hmem : post ∈ selectDue store env.now)
    (hnd : (store.posts.map Post.id).Nodup)
    (results : List (String × DispatchResult)) (store' : Store)
    (hok : publishPost env store post post.user_id = .ok (results, store')) :
    ∀ q ∈ (processScheduledPosts env store).posts, q.id = post.id →
      (q.published_at = some env.now ↔
        (q.status = Status.published ∨ q.status = Status.partialStatus)) ∧
      (q.status = Status.failed → q.published_at = none) := by
  obtain ⟨platforms, media, hp, hm, _⟩ := publishPost_ok_inv hok
  refine foldl_processOne_reach env store post _ ?_ (selectDue store env.now) hmem
    (selectDue_map_id_nodup env.now hnd) store (sameDispatchView_refl store)
  intro s hview q hq hid
  obtain ⟨hst, hpa⟩ := processOne_ok_spec env store post platforms media hp hm s hview q hq hid
  constructor
  · rw [hpa, hst]
    rcases finalStatusOf_isFinal (platforms.map
        (fun p => (attemptResult env store post post.user_id media p).success))
      with h | h | h <;> simp [h]
  · intro hfail
    rw [hst] at hfail
    rw [hpa, hfail]
    simp

/-- C1 (amended): the loop computes the final status from the outcome set as
`published` when every outcome succeeded — vacuously true for an empty outcome
set, which therefore yields `published`, not `failed` — else `partial` when at
least one succeeded, else `failed`. -/
theorem processScheduledPosts_aggregation (env : Env) (store : Store) (post : Post)
    (hmem : post ∈ selectDue store env.now)
    (hnd : (store.posts.map Post.id).Nodup)
    (results : List (String × DispatchResult)) (store' : Store)
    (hok : publishPost env store post post.user_id = .ok (results, store')) :
    (∀ q ∈ (processScheduledPosts env store).posts, q.id = post.id →
      q.status = finalStatusOf (results.map (fun r => r.2.success))) ∧
    (∀ outcomes : List Bool,
      (finalStatusOf outcomes = Status.published ↔ outcomes.all id = true) ∧
      (finalStatusOf outcomes = Status.partialStatus ↔
        (outcomes.any id = true ∧ outcomes.all id = false)) ∧
      (finalStatusOf outcomes = Status.failed ↔
        (outcomes.any id = false ∧ outcomes.all id = false))) ∧
    finalStatusOf [] = Status.published := by
  obtain ⟨platforms, media, hp, hm, heq⟩ := publishPost_ok_inv hok
  have hres : results = platforms.map
      (fun p => (p, attemptResult env store post post.user_id media p)) := by
    have h2 := (publishLoop_results env post post.user_id media store platforms [] store
      (sameDispatchView_refl store)).1
    rw [heq] at h2
    simpa using h2
  refine ⟨?_, ?_, rfl⟩
  · refine foldl_processOne_reach env store post _ ?_ (selectDue store env.now) hmem
      (selectDue_map_id_nodup env.now hnd) store (sameDispatchView_refl store)
    intro s hview q hq hid
    obtain ⟨hst, _⟩ := processOne_ok_spec env store post platforms media hp hm s hview q hq hid
    rw [hst, hres, List.map_map]
    rfl
  · intro outcomes
    by_cases h1 : outcomes.all id = true
    · simp [finalStatusOf, h1]
    · by_cases h2 : outcomes.any id = true <;> simp [finalStatusOf, h1, h2]

/-! ## The publish-now route: C2 -/

/-- C2 (amended): the immediate publish entry point performs the same fan-out
(`publishPost`), but does not apply the aggregation rule: whenever the post
exists for the user, is not already `published`, and dispatch returns its
outcome map, the route sets the status to `published` and stamps
`published_at` unconditionally, whatever the per-platform outcomes. -/
theorem publishNowRoute_sets_published (env : Env) (store : Store) (postId userId : Nat)
    (post : Post)
    (hfind : store.posts.find? (fun p => p.id = postId && p.user_id = userId) = some post)
    (hnp : ¬post.status = Status.published)
    (results : List (String × DispatchResult)) (store' : Store)
    (hok : publishPost env store post userId = .ok (results, store')) :
    (publishNowRoute env store postId userId).1 = RouteResult.ok results ∧
    ∀ q ∈ (publishNowRoute env store postId userId).2.posts, q.id = postId →
      q.status = Status.published ∧ q.published_at = some env.now := by
  unfold publishNowRoute
  rw [hfind]
  simp only [hnp, if_false]
  rw [hok]
  refine ⟨rfl, ?_⟩
  intro q hq hid
  obtain ⟨r, _, hrq⟩ := mem_updatePosts hq
  by_cases hrid : r.id = postId
  · rw [hrq]
    simp [hrid]
  · rw [hrq] at hid
    simp [hrid] at hid

/-! ## Concrete fixtures for the counterexamples and witnesses -/

/-- A concrete environment: clock at 100, `JSON.parse` behaving as on the
literal strings used by the fixtures, no platform configured for the real-API
branch, and an unreachable network. -/
def demoEnv : Env :=
  { now := 100,
    parseJson := fun s =>
      if s = "[]" then .ok []
      else if s = "[\"twitter\"]" then .ok ["twitter"]
      else if s = "[\"twitter\",\"instagram\"]" then .ok ["twitter", "instagram"]
      else .error "Unexpected token",
    envConfigured := fun _ => false,
    apiCall := fun _ _ _ _ => .error "network unavailable" }

/-- A due scheduled post whose platforms column is the empty JSON array. -/
def emptyPlatformsPost : Post :=
  { id := 1, user_id := 1, content := "hello", media_urls := none,
    platforms := some "[]", status := .scheduled, scheduled_at := some 50,
    published_at := none }

def emptyPlatformsStore : Store :=
  { users := [1], posts := [emptyPlatformsPost], platform_posts := [], accounts := [] }

/-- A due scheduled post targeting twitter, with no connected account. -/
def dueTwitterPost : Post :=
  { id := 1, user_id := 1, content := "hello", media_urls := none,
    platforms := some "[\"twitter\"]", status := .scheduled, scheduled_at := some 50,
    published_at := none }

def dueTwitterStore : Store :=
  { users := [1], posts := [dueTwitterPost], platform_posts := [], accounts := [] }

/-- A draft post targeting twitter, for the publish-now route. -/
def draftTwitterPost : Post :=
  { id := 1, user_id := 1, content := "hello", media_urls := none,
    platforms := some "[\"twitter\"]", status := .draft, scheduled_at := none,
    published_at := none }

def draftTwitterStore : Store :=
  { users := [1], posts := [draftTwitterPost], platform_posts := [], accounts := [] }

/-- A due scheduled post whose platforms column is malformed JSON. -/
def badJsonPost : Post :=
  { id := 1, user_id := 1, content := "x", media_urls := none,
    platforms := some "oops", status := .scheduled, scheduled_at := some 10,
    published_at := none }

def badJsonStore : Store :=
  { users := [1], posts := [badJsonPost], platform_posts := [], accounts := [] }

/-- The i-th of the eleven simultaneously due posts. -/
def duePost (i : Nat) : Post :=
  { id := i, user_id := 1, content := "c", media_urls := none,
    platforms := some "[]", status := .scheduled, scheduled_at := some i,
    published_at := none }

/-- Eleven due posts: one more than the per-tick `LIMIT 10`. -/
def elevenStore : Store :=
  { users := [1], posts := (List.range 11).map (fun i => duePost (i + 1)),
    platform_posts := [], accounts := [] }

/-! ## Counterexamples -/

/-- C1 counterexample: a due post with an empty platform list — an empty
per-platform outcome set — is processed by the tick to status `published`
(`[].every` is vacuously true), not `failed` as the claim states. -/
theorem processScheduledPosts_empty_outcomes_published_cex :
    emptyPlatformsPost ∈ selectDue emptyPlatformsStore demoEnv.now ∧
    publishPost demoEnv emptyPlatformsStore emptyPlatformsPost 1 =
      .ok ([], emptyPlatformsStore) ∧
    (processScheduledPosts demoEnv emptyPlatformsStore).posts.map Post.status =
      [Status.published] ∧
    ¬Status.published = Status.failed :=
  ⟨by decide, rfl, by decide, by decide⟩

/-- C2 counterexample: the dispatch of a draft twitter post records a single
failed outcome (no connected account), yet the publish-now route sets the
post's status to `published` and stamps `published_at` — not `failed` as the
claimed aggregation rule would demand. -/
theorem publishNowRoute_all_failed_published_cex :
    publishPost demoEnv draftTwitterStore draftTwitterPost 1 =
      .ok ([("twitter", { success := false, error := some "No connected twitter account found" })], draftTwitterStore) ∧
    (publishNowRoute demoEnv draftTwitterStore 1 1).2.posts.map
        (fun q => (q.status, q.published_at)) = [(Status.published, some 100)] ∧
    ¬Status.published = Status.failed :=
  ⟨rfl, by decide, by decide⟩

/-- C3 counterexample: with eleven posts due at tick start, the `LIMIT 10`
batch leaves the eleventh — due, `scheduled`, `scheduled_at ≤ now` — still
`scheduled` when the tick completes. -/
theorem eleventh_due_post_stays_scheduled_cex :
    duePost 11 ∈ elevenStore.posts ∧
    (duePost 11).status = Status.scheduled ∧
    (duePost 11).scheduled_at = some 11 ∧
    (11 : Nat) ≤ demoEnv.now ∧
    (processScheduledPosts demoEnv elevenStore).posts.map (fun q => (q.id, q.status)) =
      [(1, Status.published), (2, Status.published), (3, Status.published),
       (4, Status.published), (5, Status.published), (6, Status.published),
       (7, Status.published), (8, Status.published), (9, Status.published),
       (10, Status.published), (11, Status.scheduled)] ∧
    ¬Status.scheduled = Status.published ∧ ¬Status.scheduled = Status.partialStatus ∧
    ¬Status.scheduled = Status.failed := by
  decide

/-! ## Witnesses -/

theorem processScheduledPosts_aggregation_witness :
    ({ dueTwitterPost with status := Status.failed } : Post).status =
      finalStatusOf ([("twitter", ({ success := false, error := some "No connected twitter account found" } : DispatchResult))].map
          (fun r => r.2.success)) :=
  (processScheduledPosts_aggregation demoEnv dueTwitterStore dueTwitterPost
      (by decide) (by decide)
      [("twitter", { success := false, error := some "No connected twitter account found" })]
      dueTwitterStore rfl).1
    { dueTwitterPost with status := Status.failed } (by decide) (by decide)

theorem publishNowRoute_sets_published_witness :
    (publishNowRoute demoEnv draftTwitterStore 1 1).1 =
      RouteResult.ok [("twitter", { success := false, error := some "No connected twitter account found" })] :=
  (publishNowRoute_sets_published demoEnv draftTwitterStore 1 1 draftTwitterPost rfl
      (by decide)
      [("twitter", { success := false, error := some "No connected twitter account found" })]
      draftTwitterStore rfl).1

theorem processScheduledPosts_selected_final_witness :
    ({ dueTwitterPost with status := Status.failed } : Post).status = Status.published ∨
    ({ dueTwitterPost with status := Status.failed } : Post).status = Status.partialStatus ∨
    ({ dueTwitterPost with status := Status.failed } : Post).status = Status.failed :=
  processScheduledPosts_selected_final demoEnv dueTwitterStore dueTwitterPost (by decide)
    { dueTwitterPost with status := Status.failed } (by decide) (by decide)

theorem publishPost_per_platform_isolation_witness :
    ∃ results store', publishPost demoEnv draftTwitterStore draftTwitterPost 1 =
      .ok (results, store') := by
  obtain ⟨results, store', h, _⟩ := publishPost_per_platform_isolation demoEnv
    draftTwitterStore draftTwitterPost 1 ["twitter"] [] rfl rfl
  exact ⟨results, store', h⟩

theorem processScheduledPosts_post_error_witness :
    ({ badJsonPost with status := Status.failed } : Post).status = Status.failed :=
  (processScheduledPosts_post_error demoEnv badJsonStore badJsonPost (by decide) (by decide)
      "Unexpected token" rfl).1
    { badJsonPost with status := Status.failed } (by decide) (by decide)

theorem scheduleForOptimalTime_spec_witness :
    ∃ store' t, scheduleForOptimalTime demoEnv dueTwitterStore 1 ["twitter"] =
      Except.ok (store', t) := by
  obtain ⟨store', t, h, _⟩ := scheduleForOptimalTime_spec demoEnv dueTwitterStore 1
    ["twitter"] (by decide)
  exact ⟨store', t, h⟩

theorem processScheduledPosts_published_at_witness :
    ({ dueTwitterPost with status := Status.failed } : Post).published_at = none :=
  ((processScheduledPosts_published_at demoEnv dueTwitterStore dueTwitterPost (by decide)
      (by decide)
      [("twitter", { success := false, error := some "No connected twitter account found" })]
      dueTwitterStore rfl)
    { dueTwitterPost with status := Status.failed } (by decide) (by decide)).2 (by decide)

end SocialAI
